import Mathlib

/-!
# Verification of the emergency-triage dashboard core (src/app.py)

Shallow embedding of the genuine logic of `src/app.py`:

* the feature builder (lines 74-87): an 8-column single-row frame, the
  derived `shock_index_y` column, and the fixed column reordering;
* the risk scorer (lines 99-106): a weighted sum over the classifier's
  class probabilities with a Python `int()` truncation of each label;
* the priority queue (lines 20-21, 117, 126, 152-154): a session list
  with append, full clear, and a stable descending sort on read.

Numeric values carried by the frame are modelled by `PValue`: exact
rationals for the finite case plus the IEEE special values `posInf`,
`negInf`, `nan` that a numpy division by zero produces, and the
sentinel `missing` that the spec's replacement rule speaks about.
Float arithmetic is modelled exactly over `ℚ`.
-/

/-- A cell value of the pandas frame: a finite number, one of the
non-finite values IEEE division can produce, or the "missing" sentinel.
The `missing` constructor is modelled from the spec: the replacement of
non-finite values by a sentinel is described in the spec but absent from
`src/app.py`; the constructor only serves to state that rule. -/
inductive PValue where
  | finite (q : ℚ)
  | posInf
  | negInf
  | nan
  | missing
deriving DecidableEq, Repr

/-- The eight raw vital-sign inputs of the form (lines 56-64).
Integer widgets are `ℤ`, the temperature widget is a decimal. -/
structure VitalSigns where
  anchor_age : ℤ
  temperature_y : ℚ
  heartrate_y : ℤ
  resprate_y : ℤ
  o2sat_y : ℤ
  sbp_y : ℤ
  dbp_y : ℤ
  pain_y_numeric : ℤ
deriving DecidableEq, Repr

/-- The widget bounds of the form (lines 56-64): age 0-120,
temperature 30.0-45.0, heart rate 0-300, respiratory rate 0-100,
oxygen saturation 0-100, systolic pressure 1-300, diastolic pressure
0-200, pain 0-10. -/
def Validated (v : VitalSigns) : Prop :=
  0 ≤ v.anchor_age ∧ v.anchor_age ≤ 120 ∧
  30 ≤ v.temperature_y ∧ v.temperature_y ≤ 45 ∧
  0 ≤ v.heartrate_y ∧ v.heartrate_y ≤ 300 ∧
  0 ≤ v.resprate_y ∧ v.resprate_y ≤ 100 ∧
  0 ≤ v.o2sat_y ∧ v.o2sat_y ≤ 100 ∧
  1 ≤ v.sbp_y ∧ v.sbp_y ≤ 300 ∧
  0 ≤ v.dbp_y ∧ v.dbp_y ≤ 200 ∧
  0 ≤ v.pain_y_numeric ∧ v.pain_y_numeric ≤ 10

/-- The single-row frame built at lines 74-79, as an ordered association
list of column name and cell value, in the insertion order of the dict. -/
def input_data (v : VitalSigns) : List (String × PValue) :=
  [("anchor_age", .finite v.anchor_age),
   ("temperature_y", .finite v.temperature_y),
   ("heartrate_y", .finite v.heartrate_y),
   ("resprate_y", .finite v.resprate_y),
   ("o2sat_y", .finite v.o2sat_y),
   ("sbp_y", .finite v.sbp_y),
   ("dbp_y", .finite v.dbp_y),
   ("pain_y_numeric", .finite v.pain_y_numeric)]

/-- numpy elementwise division of finite cells: a zero divisor yields
`inf`, `-inf` or `nan` according to the sign of the dividend, otherwise
the exact quotient. -/
def npDivQ (a b : ℚ) : PValue :=
  if b = 0 then (if 0 < a then .posInf else if a < 0 then .negInf else .nan)
  else .finite (a / b)

/-- Line 82: `input_data['shock_index_y'] = heartrate_y / sbp_y`, which
appends a ninth column to the frame. -/
def with_shock (v : VitalSigns) : List (String × PValue) :=
  input_data v ++ [("shock_index_y", npDivQ v.heartrate_y v.sbp_y)]

/-- Lines 85-86: the fixed column order. -/
def cols : List String :=
  ["anchor_age", "temperature_y", "heartrate_y", "resprate_y",
   "o2sat_y", "sbp_y", "dbp_y", "pain_y_numeric", "shock_index_y"]

/-- Column lookup in a frame; every name used below is present, the
`nan` default is never reached. -/
def getCol (frame : List (String × PValue)) (c : String) : PValue :=
  match frame.find? (fun kv => kv.1 == c) with
  | some kv => kv.2
  | none => .nan

/-- Line 87: `final_data = input_data[cols]`, the frame reindexed to the
fixed column order; this is the feature vector handed to the classifier. -/
def final_data (v : VitalSigns) : List (String × PValue) :=
  cols.map (fun c => (c, getCol (with_shock v) c))

/-- Python `int()` on a real number: truncation toward zero
(line 104, `lvl = int(level_class)`). -/
def pyInt (q : ℚ) : ℤ := if 0 ≤ q then ⌊q⌋ else -⌊-q⌋

/-- Line 99: the weight dict `{1: 100, 2: 80, 3: 60, 4: 40, 5: 20}`;
`none` is absence of the key. -/
def weights (lvl : ℤ) : Option ℚ :=
  if lvl = 1 then some 100
  else if lvl = 2 then some 80
  else if lvl = 3 then some 60
  else if lvl = 4 then some 40
  else if lvl = 5 then some 20
  else none

/-- Lines 101-106: the accumulation loop over `enumerate(model.classes_)`
indexing `proba[idx]`.  Walking the class list in step with the
probability list is the same indexing; a class with no matching
probability raises `IndexError`, modelled by `none`.  Probabilities past
the last class are never read. -/
def risk_score : List ℚ → List ℚ → Option ℚ
  | [], _ => some 0
  | _ :: _, [] => none
  | c :: cs, p :: ps =>
    match risk_score cs ps with
    | none => none
    | some s =>
      some ((match weights (pyInt c) with | some w => p * w | none => 0) + s)

/-- The weight a class label effectively receives in the loop: the dict
entry of its `int()` truncation, or 0 when the key is absent. -/
def truncWeight (c : ℚ) : ℚ := (weights (pyInt c)).getD 0

/-- The weight the claim's wording assigns: looked up on the label value
itself, with levels outside the set contributing 0 (a floating-point
1.0 and the integer 1 are the same rational, so the claim's
normalisation of float-encoded integers is the identity here). -/
def claimWeight (c : ℚ) : ℚ :=
  if c = 1 then 100
  else if c = 2 then 80
  else if c = 3 then 60
  else if c = 4 then 40
  else if c = 5 then 20
  else 0

/-- The sum the claim's wording describes. -/
def claimRiskSum (cs ps : List ℚ) : ℚ :=
  (List.zipWith (fun c p => p * claimWeight c) cs ps).sum

/-- Python `round(x, 1)` modelled exactly over `ℚ`: round `10 * x` to
the nearest integer with ties to even, divide by 10. -/
def roundHalfEven (q : ℚ) : ℤ :=
  let n := ⌊q⌋
  if q - n < 1/2 then n
  else if 1/2 < q - n then n + 1
  else if n % 2 = 0 then n else n + 1

/-- `round(risk_score, 1)` of line 113. -/
def pyRound1 (q : ℚ) : ℚ := (roundHalfEven (10 * q) : ℚ) / 10

/-- The dict built at lines 109-116; field names translate the Korean
keys 이름, 도착시간, 예측단계, 응급점수, 나이, 주증상. -/
structure PatientRecord where
  name : String
  arrival : String
  levelLabel : String
  score : ℚ
  age : ℤ
  symptoms : String
deriving DecidableEq, Repr

/-- Lines 109-116: the record appended on a successful registration.
`arrival` is the ambient wall-clock string of `datetime.now()`, an
input of the model; `rs` is the computed risk score, stored rounded to
one decimal place. -/
def mkPatient (p_name now : String) (pred_level : ℚ) (rs : ℚ) (v : VitalSigns) :
    PatientRecord :=
  { name := p_name
    arrival := now
    levelLabel := "Level " ++ toString (pyInt pred_level)
    score := pyRound1 rs
    age := v.anchor_age
    symptoms := "통증 " ++ toString v.pain_y_numeric ++ ", 열 " ++ toString v.temperature_y }

/-- The session list `st.session_state.patient_list` (lines 20-21). -/
abbrev Queue := List PatientRecord

/-- Line 117: `st.session_state.patient_list.append(new_patient)`. -/
def register (q : Queue) (r : PatientRecord) : Queue := q ++ [r]

/-- Lines 152-153: `st.session_state.patient_list = []`. -/
def clear_queue (_ : Queue) : Queue := []

/-- One step of the stable descending sort: insert `r` after every
already-placed element of strictly greater score, before the first
element of equal or smaller score. -/
def insertDesc (r : PatientRecord) : List PatientRecord → List PatientRecord
  | [] => [r]
  | x :: xs => if r.score < x.score then x :: insertDesc r xs else r :: x :: xs

/-- The stable sort by score descending.  Python's `sorted` with
`reverse=True` is stable — elements of equal key keep their original
relative order — and a stable descending permutation of a list is
unique, so this insertion sort computes exactly the list of line 126. -/
def sortDesc : List PatientRecord → List PatientRecord
  | [] => []
  | x :: xs => insertDesc x (sortDesc xs)

/-- Line 126: `sorted(patient_list, key=lambda x: x['응급점수'],
reverse=True)`. -/
def sorted_list (q : Queue) : List PatientRecord := sortDesc q

/-- The queue read of lines 124-149: `sorted` builds a fresh list and
leaves the session list untouched, so the view returns the displayed
order together with the unchanged queue. -/
def view_sorted (q : Queue) : List PatientRecord × Queue := (sorted_list q, q)

/-- The submit handler, lines 69-118.  The classifier is the external
collaborator: `classes` is `model.classes_`, `proba` the probability
row `predict_proba(final_data)[0]`, `pred_level` the value
`predict(final_data)[0]`, and `now` the `datetime.now()` string.  An
empty name (`if not p_name`) only warns and leaves the queue as it is;
an `IndexError` in the scoring loop propagates, modelled by `none`. -/
def handle_submit (q : Queue) (p_name : String) (v : VitalSigns)
    (classes proba : List ℚ) (pred_level : ℚ) (now : String) : Option Queue :=
  if p_name = "" then some q
  else
    match risk_score classes proba with
    | none => none
    | some rs => some (register q (mkPatient p_name now pred_level rs v))

/-- The default values of the form widgets (lines 56-64), a concrete
in-range input. -/
def sampleVitals : VitalSigns :=
  { anchor_age := 50, temperature_y := 36.5, heartrate_y := 80, resprate_y := 20,
    o2sat_y := 98, sbp_y := 120, dbp_y := 80, pain_y_numeric := 0 }

/-- The default input with the systolic pressure forced to 0, below the
widget minimum of 1: the raw feature builder applied outside the
validated range. -/
def zeroSbpVitals : VitalSigns :=
  { anchor_age := 50, temperature_y := 36.5, heartrate_y := 80, resprate_y := 20,
    o2sat_y := 98, sbp_y := 0, dbp_y := 80, pain_y_numeric := 0 }

/-- The scoring loop, written as a sum over the class/probability pairs:
each class contributes its probability times the weight of its `int()`
truncation. -/
lemma risk_score_eq_zip (cs : List ℚ) : ∀ ps : List ℚ, cs.length = ps.length →
    risk_score cs ps = some ((List.zipWith (fun c p => p * truncWeight c) cs ps).sum) := by
  induction cs with
  | nil => intro ps _; simp [risk_score]
  | cons c cs ih =>
    intro ps h
    cases ps with
    | nil => simp at h
    | cons p ps =>
      have hrec := ih ps (by simpa using h)
      rw [risk_score, hrec]
      simp only [List.zipWith_cons_cons, List.sum_cons, truncWeight]
      cases hw : weights (pyInt c) <;> simp [hw]

/-- Bounds for the rewritten scoring sum: with classes in the weighted
set and nonnegative probabilities, the sum lies between 0 and 100 times
the total probability mass. -/
lemma zip_weight_sum_bounds (cs : List ℚ) : ∀ ps : List ℚ,
    (∀ c ∈ cs, c = 1 ∨ c = 2 ∨ c = 3 ∨ c = 4 ∨ c = 5) → (∀ p ∈ ps, 0 ≤ p) →
    0 ≤ (List.zipWith (fun c p => p * truncWeight c) cs ps).sum ∧
    (List.zipWith (fun c p => p * truncWeight c) cs ps).sum ≤ 100 * ps.sum := by
  induction cs with
  | nil =>
    intro ps _ hp
    have : (0:ℚ) ≤ ps.sum := List.sum_nonneg hp
    simp only [List.zipWith_nil_left, List.sum_nil]
    constructor
    · exact le_refl 0
    · positivity
  | cons c cs ih =>
    intro ps hc hp
    cases ps with
    | nil => simp
    | cons p ps =>
      have hp0 : 0 ≤ p := hp p (List.mem_cons_self p ps)
      have hw : 0 ≤ truncWeight c ∧ truncWeight c ≤ 100 := by
        rcases hc c (List.mem_cons_self c cs) with rfl | rfl | rfl | rfl | rfl <;>
          norm_num [truncWeight, weights, pyInt]
      have hrest := ih ps (fun x hx => hc x (List.mem_cons_of_mem c hx))
        (fun x hx => hp x (List.mem_cons_of_mem p hx))
      simp only [List.zipWith_cons_cons, List.sum_cons]
      constructor
      · exact add_nonneg (mul_nonneg hp0 hw.1) hrest.1
      · have h1 : p * truncWeight c ≤ p * 100 := mul_le_mul_of_nonneg_left hw.2 hp0
        have h2 := hrest.2
        nlinarith [h1, h2]

/-- Inserting a record permutes consing it in front. -/
lemma insertDesc_perm (r : PatientRecord) (l : List PatientRecord) :
    List.Perm (insertDesc r l) (r :: l) := by
  induction l with
  | nil => exact List.Perm.refl _
  | cons x xs ih =>
    by_cases hc : r.score < x.score
    · rw [insertDesc, if_pos hc]
      exact (ih.cons x).trans (List.Perm.swap r x xs)
    · rw [insertDesc, if_neg hc]

/-- Insertion preserves the descending order of the scores. -/
lemma insertDesc_sorted (r : PatientRecord) (l : List PatientRecord)
    (hl : l.Pairwise (fun a b => b.score ≤ a.score)) :
    (insertDesc r l).Pairwise (fun a b => b.score ≤ a.score) := by
  induction l with
  | nil => simp [insertDesc]
  | cons x xs ih =>
    rcases List.pairwise_cons.mp hl with ⟨hx, hxs⟩
    by_cases hc : r.score < x.score
    · rw [insertDesc, if_pos hc]
      refine List.pairwise_cons.mpr ⟨?_, ih hxs⟩
      intro y hy
      rcases List.mem_cons.mp ((insertDesc_perm r xs).mem_iff.mp hy) with rfl | hmem
      · exact le_of_lt hc
      · exact hx y hmem
    · rw [insertDesc, if_neg hc]
      have hxr : x.score ≤ r.score := not_lt.mp hc
      refine List.pairwise_cons.mpr ⟨?_, hl⟩
      intro y hy
      rcases List.mem_cons.mp hy with rfl | hmem
      · exact hxr
      · exact (hx y hmem).trans hxr

/-- Insertion inserts `r` after the run of strictly greater scores, so
restricting to any one score value either prepends `r` (its own score)
or leaves the restriction unchanged. -/
lemma insertDesc_filter (r : PatientRecord) (l : List PatientRecord) (sc : ℚ) :
    (insertDesc r l).filter (fun y => decide (y.score = sc)) =
      if r.score = sc then r :: l.filter (fun y => decide (y.score = sc))
      else l.filter (fun y => decide (y.score = sc)) := by
  induction l with
  | nil =>
    by_cases hr : r.score = sc <;> simp [insertDesc, List.filter, hr]
  | cons x xs ih =>
    by_cases hc : r.score < x.score
    · rw [insertDesc, if_pos hc]
      by_cases hr : r.score = sc
      · have hx : ¬ x.score = sc := by
          intro hxe
          rw [hr, ← hxe] at hc
          exact lt_irrefl x.score hc
        simp [List.filter_cons, hx, hr, ih]
      · by_cases hx : x.score = sc <;> simp [List.filter_cons, hx, hr, ih]
    · rw [insertDesc, if_neg hc]
      by_cases hr : r.score = sc <;> simp [List.filter_cons, hr]

/-- The sorted view is a permutation of the stored list. -/
lemma sortDesc_perm (l : List PatientRecord) : List.Perm (sortDesc l) l := by
  induction l with
  | nil => exact List.Perm.refl _
  | cons x xs ih => exact (insertDesc_perm x (sortDesc xs)).trans (ih.cons x)

/-- The sorted view is descending in the scores. -/
lemma sortDesc_sorted (l : List PatientRecord) :
    (sortDesc l).Pairwise (fun a b => b.score ≤ a.score) := by
  induction l with
  | nil => simp [sortDesc]
  | cons x xs ih => exact insertDesc_sorted x (sortDesc xs) ih

/-- Stability: the subsequence of records carrying any one score value
is the same in the sorted view and in the stored list. -/
lemma sortDesc_filter (l : List PatientRecord) (sc : ℚ) :
    (sortDesc l).filter (fun y => decide (y.score = sc)) =
      l.filter (fun y => decide (y.score = sc)) := by
  induction l with
  | nil => rfl
  | cons x xs ih =>
    rw [sortDesc, insertDesc_filter]
    by_cases hx : x.score = sc <;> simp [List.filter_cons, hx, ih]

/-- C1 (counterexample): the scoring loop does not give a zero weight to
every class label outside {1, 2, 3, 4, 5}.  At the single class label
1.5 with probability 1 the code truncates the label with `int()` to 1
and scores 100, while the sum described by the claim gives 0. -/
theorem C1_claim_counterexample :
    risk_score [(3:ℚ)/2] [1] = some 100 ∧ claimRiskSum [(3:ℚ)/2] [1] = 0 ∧
    risk_score [(3:ℚ)/2] [1] ≠ some (claimRiskSum [(3:ℚ)/2] [1]) := by
  refine ⟨?_, ?_, ?_⟩
  · norm_num [risk_score, weights, pyInt]
  · norm_num [claimRiskSum, claimWeight]
  · norm_num [risk_score, weights, pyInt, claimRiskSum, claimWeight]

/-- C1 (amended): for classes and probabilities of equal length the
computed risk score is the sum over all indices of probability times
the weight of the `int()` truncation (toward zero) of the class label;
the fixed lookup is 1→100, 2→80, 3→60, 4→40, 5→20 and a truncated
label outside that set contributes 0.  A floating-point-encoded integer
label such as 1.0 truncates to its integer identity. -/
theorem C1_risk_score_truncates_labels (cs ps : List ℚ) (h : cs.length = ps.length) :
    risk_score cs ps = some ((List.zipWith (fun c p => p * truncWeight c) cs ps).sum) :=
  risk_score_eq_zip cs ps h

/-- C1 witness: classes [1.5, 2] with probabilities [0.5, 0.5] satisfy
the length hypothesis and score 0.5·100 + 0.5·80 = 90. -/
theorem C1_risk_score_truncates_labels_witness :
    ([(3:ℚ)/2, 2].length = [(1:ℚ)/2, 1/2].length) ∧
    risk_score [(3:ℚ)/2, 2] [(1:ℚ)/2, 1/2] =
      some ((List.zipWith (fun c p => p * truncWeight c) [(3:ℚ)/2, 2] [(1:ℚ)/2, 1/2]).sum) ∧
    (List.zipWith (fun c p => p * truncWeight c) [(3:ℚ)/2, 2] [(1:ℚ)/2, 1/2]).sum = 90 :=
  ⟨by norm_num, C1_risk_score_truncates_labels _ _ (by norm_num),
   by norm_num [truncWeight, weights, pyInt]⟩

/-- C2: on any validated input the feature builder emits the nine
columns unchanged, with `shock_index_y` the exact quotient of heart
rate by systolic pressure. -/
theorem C2_shock_index_exact (v : VitalSigns) (h : Validated v) :
    final_data v =
      [("anchor_age", .finite v.anchor_age),
       ("temperature_y", .finite v.temperature_y),
       ("heartrate_y", .finite v.heartrate_y),
       ("resprate_y", .finite v.resprate_y),
       ("o2sat_y", .finite v.o2sat_y),
       ("sbp_y", .finite v.sbp_y),
       ("dbp_y", .finite v.dbp_y),
       ("pain_y_numeric", .finite v.pain_y_numeric),
       ("shock_index_y", .finite ((v.heartrate_y : ℚ) / v.sbp_y))] := by
  obtain ⟨_, _, _, _, _, _, _, _, _, _, hsbp, _⟩ := h
  have hs : (v.sbp_y : ℚ) ≠ 0 := by
    exact_mod_cast Int.ne_of_gt (lt_of_lt_of_le Int.zero_lt_one hsbp)
  have hdiv : npDivQ (v.heartrate_y : ℚ) (v.sbp_y : ℚ) =
      .finite ((v.heartrate_y : ℚ) / v.sbp_y) := by
    simp [npDivQ, hs]
  calc final_data v
      = [("anchor_age", .finite v.anchor_age),
         ("temperature_y", .finite v.temperature_y),
         ("heartrate_y", .finite v.heartrate_y),
         ("resprate_y", .finite v.resprate_y),
         ("o2sat_y", .finite v.o2sat_y),
         ("sbp_y", .finite v.sbp_y),
         ("dbp_y", .finite v.dbp_y),
         ("pain_y_numeric", .finite v.pain_y_numeric),
         ("shock_index_y", npDivQ v.heartrate_y v.sbp_y)] := rfl
    _ = _ := by rw [hdiv]

/-- C2 witness: the form's default values are validated and the ninth
column is the exact quotient 80/120 = 2/3. -/
theorem C2_shock_index_exact_witness :
    Validated sampleVitals ∧
    final_data sampleVitals =
      [("anchor_age", .finite 50),
       ("temperature_y", .finite 36.5),
       ("heartrate_y", .finite 80),
       ("resprate_y", .finite 20),
       ("o2sat_y", .finite 98),
       ("sbp_y", .finite 120),
       ("dbp_y", .finite 80),
       ("pain_y_numeric", .finite 0),
       ("shock_index_y", .finite (2/3))] := by
  have hval : Validated sampleVitals := by norm_num [Validated, sampleVitals]
  refine ⟨hval, ?_⟩
  rw [C2_shock_index_exact sampleVitals hval]
  norm_num [sampleVitals]

/-- C3 (counterexample): the feature builder contains no replacement of
a non-finite division result.  Applying it to the default input with
the systolic pressure set to 0, the division produces the IEEE value
inf and the `shock_index_y` cell handed to the classifier is exactly
that inf, not the "missing" sentinel the claim requires. -/
theorem C3_claim_counterexample :
    npDivQ (zeroSbpVitals.heartrate_y : ℚ) (zeroSbpVitals.sbp_y : ℚ) = .posInf ∧
    getCol (final_data zeroSbpVitals) "shock_index_y" = .posInf ∧
    PValue.posInf ≠ PValue.missing := by
  have hdiv : npDivQ (zeroSbpVitals.heartrate_y : ℚ) (zeroSbpVitals.sbp_y : ℚ) = .posInf := by
    norm_num [zeroSbpVitals, npDivQ]
  refine ⟨hdiv, ?_, by simp⟩
  calc getCol (final_data zeroSbpVitals) "shock_index_y"
      = npDivQ (zeroSbpVitals.heartrate_y : ℚ) (zeroSbpVitals.sbp_y : ℚ) := rfl
    _ = .posInf := hdiv

/-- C3 (amended): no sentinel replacement is performed anywhere in the
pipeline; instead, for every input within the form's validation
(systolic pressure at least 1) the division never produces inf, -inf
or NaN, so the `shock_index_y` cell handed to the classifier is always
the finite exact quotient. -/
theorem C3_no_nonfinite_reaches_classifier (v : VitalSigns) (h : 1 ≤ v.sbp_y) :
    getCol (final_data v) "shock_index_y" = .finite ((v.heartrate_y : ℚ) / v.sbp_y) ∧
    getCol (final_data v) "shock_index_y" ≠ .posInf ∧
    getCol (final_data v) "shock_index_y" ≠ .negInf ∧
    getCol (final_data v) "shock_index_y" ≠ .nan := by
  have hs : (v.sbp_y : ℚ) ≠ 0 := by
    exact_mod_cast Int.ne_of_gt (lt_of_lt_of_le Int.zero_lt_one h)
  have hcell : getCol (final_data v) "shock_index_y" =
      .finite ((v.heartrate_y : ℚ) / v.sbp_y) := by
    calc getCol (final_data v) "shock_index_y"
        = npDivQ (v.heartrate_y : ℚ) (v.sbp_y : ℚ) := rfl
      _ = .finite ((v.heartrate_y : ℚ) / v.sbp_y) := by simp [npDivQ, hs]
  refine ⟨hcell, ?_, ?_, ?_⟩ <;> rw [hcell] <;> simp

/-- C3 witness: the default form input has systolic pressure 120 and
its `shock_index_y` cell is the finite quotient. -/
theorem C3_no_nonfinite_reaches_classifier_witness :
    (1 ≤ sampleVitals.sbp_y) ∧
    (getCol (final_data sampleVitals) "shock_index_y" =
      .finite ((sampleVitals.heartrate_y : ℚ) / sampleVitals.sbp_y) ∧
    getCol (final_data sampleVitals) "shock_index_y" ≠ .posInf ∧
    getCol (final_data sampleVitals) "shock_index_y" ≠ .negInf ∧
    getCol (final_data sampleVitals) "shock_index_y" ≠ .nan) :=
  ⟨by norm_num [sampleVitals], C3_no_nonfinite_reaches_classifier sampleVitals (by norm_num [sampleVitals])⟩

/-- C4: for every input the feature vector handed to the classifier has
its nine columns in exactly the fixed order; the name list does not
depend on the input values. -/
theorem C4_column_order_invariant (v : VitalSigns) :
    (final_data v).map Prod.fst =
      ["anchor_age", "temperature_y", "heartrate_y", "resprate_y",
       "o2sat_y", "sbp_y", "dbp_y", "pain_y_numeric", "shock_index_y"] := rfl

/-- C5: in every queue state the view returns all stored records (a
permutation, so none omitted or duplicated), in descending score order,
stable: the subsequence carrying any one score value equals its
subsequence in insertion order; and the stored list is returned
unchanged. -/
theorem C5_view_sorted_spec (q : Queue) :
    List.Perm (view_sorted q).1 q ∧
    (view_sorted q).1.Pairwise (fun a b => b.score ≤ a.score) ∧
    (∀ sc : ℚ, (view_sorted q).1.filter (fun r => decide (r.score = sc)) =
      q.filter (fun r => decide (r.score = sc))) ∧
    (view_sorted q).2 = q :=
  ⟨sortDesc_perm q, sortDesc_sorted q, fun sc => sortDesc_filter q sc, rfl⟩

/-- C6: for every probability distribution (nonnegative, summing to 1)
over classes contained in {1, 2, 3, 4, 5} the risk score exists and
lies in [0, 100]; and on classes [1,2,3,4,5] the probability rows
[1,0,0,0,0], [0,0,0,0,1] and [0.2,0.2,0.2,0.2,0.2] score 100, 20
and 60. -/
theorem C6_risk_score_bounded (cs ps : List ℚ) (hlen : cs.length = ps.length)
    (hcls : ∀ c ∈ cs, c = 1 ∨ c = 2 ∨ c = 3 ∨ c = 4 ∨ c = 5)
    (hpos : ∀ p ∈ ps, 0 ≤ p) (hsum : ps.sum = 1) :
    (∃ s, risk_score cs ps = some s ∧ 0 ≤ s ∧ s ≤ 100) ∧
    risk_score [1,2,3,4,5] [1,0,0,0,0] = some 100 ∧
    risk_score [1,2,3,4,5] [0,0,0,0,1] = some 20 ∧
    risk_score [1,2,3,4,5] [0.2,0.2,0.2,0.2,0.2] = some 60 := by
  refine ⟨?_, ?_, ?_, ?_⟩
  · have hb := zip_weight_sum_bounds cs ps hcls hpos
    refine ⟨(List.zipWith (fun c p => p * truncWeight c) cs ps).sum,
      risk_score_eq_zip cs ps hlen, hb.1, ?_⟩
    calc (List.zipWith (fun c p => p * truncWeight c) cs ps).sum
        ≤ 100 * ps.sum := hb.2
      _ = 100 := by rw [hsum]; norm_num
  · norm_num [risk_score, weights, pyInt]
  · norm_num [risk_score, weights, pyInt]
  · norm_num [risk_score, weights, pyInt]

/-- C6 witness: the uniform distribution over [1,2,3,4,5] satisfies all
hypotheses and its score exists in [0, 100]. -/
theorem C6_risk_score_bounded_witness :
    (([1,2,3,4,5] : List ℚ).length = ([0.2,0.2,0.2,0.2,0.2] : List ℚ).length) ∧
    (∀ c ∈ ([1,2,3,4,5] : List ℚ), c = 1 ∨ c = 2 ∨ c = 3 ∨ c = 4 ∨ c = 5) ∧
    (∀ p ∈ ([0.2,0.2,0.2,0.2,0.2] : List ℚ), 0 ≤ p) ∧
    ([0.2,0.2,0.2,0.2,0.2] : List ℚ).sum = 1 ∧
    (∃ s, risk_score [1,2,3,4,5] [0.2,0.2,0.2,0.2,0.2] = some s ∧ 0 ≤ s ∧ s ≤ 100) := by
  have h1 : (([1,2,3,4,5] : List ℚ).length = ([0.2,0.2,0.2,0.2,0.2] : List ℚ).length) := by
    norm_num
  have h2 : (∀ c ∈ ([1,2,3,4,5] : List ℚ), c = 1 ∨ c = 2 ∨ c = 3 ∨ c = 4 ∨ c = 5) := by
    intro c hc
    fin_cases hc <;> norm_num
  have h3 : (∀ p ∈ ([0.2,0.2,0.2,0.2,0.2] : List ℚ), 0 ≤ p) := by
    intro p hp
    fin_cases hp <;> norm_num
  have h4 : ([0.2,0.2,0.2,0.2,0.2] : List ℚ).sum = 1 := by norm_num
  exact ⟨h1, h2, h3, h4, (C6_risk_score_bounded _ _ h1 h2 h3 h4).1⟩

/-- C7: submitting with the empty patient name only warns: for every
queue state and every other submission data, the handler returns the
queue exactly as it was — no record is appended, length and contents
unchanged. -/
theorem C7_empty_name_rejected (q : Queue) (v : VitalSigns)
    (classes proba : List ℚ) (pred_level : ℚ) (now : String) :
    handle_submit q "" v classes proba pred_level now = some q ∧
    (handle_submit q "" v classes proba pred_level now).map List.length = some q.length :=
  ⟨rfl, rfl⟩

/-- C8: registering any record, clearing, then viewing yields the empty
sequence, from every queue state. -/
theorem C8_register_clear_view_empty (q : Queue) (r : PatientRecord) :
    (view_sorted (clear_queue (register q r))).1 = [] := rfl

/-- C9: the view does not change the queue, so two consecutive calls
with no intervening register or clear return identical output. -/
theorem C9_view_sorted_idempotent (q : Queue) :
    (view_sorted ((view_sorted q).2)).1 = (view_sorted q).1 := rfl

/-- C10: a record stores the computed risk score rounded to one decimal
place, and the view sorts on that stored value: two records registered
in order whose raw scores differ but round to the same one-decimal
value are a tie and are displayed in insertion order. -/
theorem C10_rounded_score_ties (n1 now1 n2 now2 : String) (pl1 pl2 : ℚ)
    (v1 v2 : VitalSigns) (s1 s2 : ℚ) (_hne : s1 ≠ s2)
    (hround : pyRound1 s1 = pyRound1 s2) :
    (mkPatient n1 now1 pl1 s1 v1).score = pyRound1 s1 ∧
    (view_sorted (register (register [] (mkPatient n1 now1 pl1 s1 v1))
        (mkPatient n2 now2 pl2 s2 v2))).1 =
      [mkPatient n1 now1 pl1 s1 v1, mkPatient n2 now2 pl2 s2 v2] := by
  refine ⟨rfl, ?_⟩
  have hlt : ¬ (mkPatient n1 now1 pl1 s1 v1).score < (mkPatient n2 now2 pl2 s2 v2).score := by
    simp [mkPatient, hround]
  have hq : register (register [] (mkPatient n1 now1 pl1 s1 v1))
      (mkPatient n2 now2 pl2 s2 v2) =
      [mkPatient n1 now1 pl1 s1 v1, mkPatient n2 now2 pl2 s2 v2] := rfl
  rw [view_sorted, hq]
  show sorted_list _ = _
  rw [sorted_list, sortDesc, sortDesc, sortDesc, insertDesc, insertDesc, if_neg hlt]

/-- C10 witness: raw scores 60.04 and 60.01 differ, both round to 60.0,
and the two records are displayed in insertion order. -/
theorem C10_rounded_score_ties_witness :
    ((6004:ℚ)/100 ≠ (6001:ℚ)/100) ∧
    pyRound1 ((6004:ℚ)/100) = pyRound1 ((6001:ℚ)/100) ∧
    ((mkPatient "A" "10:00:00" 2 ((6004:ℚ)/100) sampleVitals).score =
        pyRound1 ((6004:ℚ)/100) ∧
      (view_sorted (register (register []
          (mkPatient "A" "10:00:00" 2 ((6004:ℚ)/100) sampleVitals))
          (mkPatient "B" "10:00:01" 2 ((6001:ℚ)/100) sampleVitals))).1 =
        [mkPatient "A" "10:00:00" 2 ((6004:ℚ)/100) sampleVitals,
         mkPatient "B" "10:00:01" 2 ((6001:ℚ)/100) sampleVitals]) :=
  ⟨by norm_num, by norm_num [pyRound1, roundHalfEven],
   C10_rounded_score_ties "A" "10:00:00" "B" "10:00:01" 2 2 sampleVitals sampleVitals
     ((6004:ℚ)/100) ((6001:ℚ)/100) (by norm_num) (by norm_num [pyRound1, roundHalfEven])⟩
